import Mathlib

/-!
# Verification of the `zcstring` zero-copy string library

Shallow embedding of `src/lib.rs` (crate `zcstring`), a wrapper around
`arcstr::Substr` for zero-copy parsing with a thread-local source context.

Modelling choices:
* A `Buffer` models one reference-counted `ArcStr` allocation: an identity
  (`id`), a stable base address (`addr`) and immutable byte content (`data`,
  bytes as `Nat` values).
* A `ZCString` models the Rust `ZCString(Substr)`: a buffer, a byte offset
  and a byte length.
* A `Slice` models a raw `&str`: a start address plus the bytes it addresses.
* Allocation (`ArcStr::from`, `ArcStr::init_with`) is explicit state passing
  through an `Alloc` record handing out fresh buffer identities/addresses.
* Rust panics (out-of-bounds `Substr::substr`) are modelled as `none`.
* The thread-local `SOURCE` cell is an explicit `Option ZCString` value that
  is threaded through the functions that touch it.
-/

namespace Zcstring

/-- One `ArcStr` allocation: identity, stable base address, immutable bytes. -/
structure Buffer where
  id : Nat
  addr : Nat
  data : List Nat
  deriving Repr, DecidableEq

/-- The Rust `ZCString(Substr)`: a view `(buffer, byte offset, byte length)`. -/
structure ZCString where
  buf : Buffer
  off : Nat
  len : Nat
  deriving Repr, DecidableEq

/-- A raw `&str`: the address of its first byte and the bytes it denotes. -/
structure Slice where
  addr : Nat
  data : List Nat
  deriving Repr, DecidableEq

/-- Allocator state: next fresh buffer identity and next fresh base address. -/
structure Alloc where
  nextId : Nat
  nextAddr : Nat
  deriving Repr, DecidableEq

/-- Well-formedness of a view: its byte range lies inside its buffer. -/
def ZCString.WF (z : ZCString) : Prop :=
  z.off + z.len ≤ z.buf.data.length

instance (z : ZCString) : Decidable z.WF := by
  unfold ZCString.WF; infer_instance

/-- The bytes a view addresses (the `str` content of the `Substr`). -/
def ZCString.content (z : ZCString) : List Nat :=
  (z.buf.data.drop z.off).take z.len

/-- `self.0.as_ptr()`: address of the first byte of the view. -/
def ZCString.addrStart (z : ZCString) : Nat :=
  z.buf.addr + z.off

/-- Deref of a `ZCString` to `&str` (`self.as_str()`): address and bytes. -/
def ZCString.as_str (z : ZCString) : Slice :=
  { addr := z.addrStart, data := z.content }

/-- The `&str` obtained by slicing a view's text at byte range `[a, b)`,
as a standard-library string operation over the view's own text would
produce it (`&v[a..b]`). -/
def ZCString.sliceAt (z : ZCString) (a b : Nat) : Slice :=
  { addr := z.addrStart + a, data := (z.content.drop a).take (b - a) }

/-- Rust `str::is_char_boundary` on raw bytes: `0` is a boundary, the total
length is a boundary, and otherwise the byte at the index must not be a
UTF-8 continuation byte. -/
def isCharBoundary (data : List Nat) (i : Nat) : Bool :=
  if i = 0 then true
  else
    match data[i]? with
    | none => decide (i = data.length)
    | some b => decide (¬ (128 ≤ b ∧ b < 192))

/-- Allocate a fresh buffer holding a copy of `data` (an `ArcStr::from`). -/
def Alloc.alloc (σ : Alloc) (data : List Nat) : Buffer × Alloc :=
  ({ id := σ.nextId, addr := σ.nextAddr, data := data },
   { nextId := σ.nextId + 1, nextAddr := σ.nextAddr + data.length + 1 })

/-- `ZCString::from_str_without_source`: always allocate a new `ArcStr`
copying `s` and wrap it in a full-range `Substr`. -/
def from_str_without_source (s : Slice) (σ : Alloc) : ZCString × Alloc :=
  let (b, σ') := σ.alloc s.data
  ({ buf := b, off := 0, len := s.data.length }, σ')

/-- `ZCString::substr` (via `arcstr::Substr::substr`): sub-slice of the view
at range `[a, b)` relative to the view. The Rust code panics when the range
is out of bounds or cuts a character; the panic is modelled as `none`. -/
def ZCString.substr (z : ZCString) (a b : Nat) : Option ZCString :=
  if a ≤ b ∧ b ≤ z.len ∧ isCharBoundary z.content a ∧ isCharBoundary z.content b then
    some { buf := z.buf, off := z.off + a, len := b - a }
  else
    none

/-- `ZCString::source_of`: address-arithmetic provenance check, exactly as in
the source: `checked_sub` of the start addresses, then `offset < self.0.len()`.
(No check on the end of the candidate range.) -/
def ZCString.source_of (z : ZCString) (s : Slice) : Bool :=
  if z.addrStart ≤ s.addr then
    decide (s.addr - z.addrStart < z.len)
  else
    false

/-- `ZCString::from_substr` (the spec's `reslice_or_copy`): if `checked_sub`
succeeds and the offset is below the view's length, take
`self.substr(offset..offset + s.len())`; otherwise allocate. -/
def ZCString.from_substr (z : ZCString) (s : Slice) (σ : Alloc) :
    Option (ZCString × Alloc) :=
  if z.addrStart ≤ s.addr ∧ s.addr - z.addrStart < z.len then
    (z.substr (s.addr - z.addrStart) (s.addr - z.addrStart + s.data.length)).map
      (fun r => (r, σ))
  else
    some (from_str_without_source s σ)

/-- `ZCString::from_str_with_source`: consult the thread-local `SOURCE`;
delegate to `from_substr` of the installed source, else allocate. -/
def from_str_with_source (ctx : Option ZCString) (s : Slice) (σ : Alloc) :
    Option (ZCString × Alloc) :=
  match ctx with
  | some source => source.from_substr s σ
  | none => some (from_str_without_source s σ)

/-- `impl From<&str> for ZCString`: delegates to `from_str_with_source`. -/
def from_str_impl (ctx : Option ZCString) (s : Slice) (σ : Alloc) :
    Option (ZCString × Alloc) :=
  from_str_with_source ctx s σ

/-- `ZCString::detach`: copy the view's text into a brand-new allocation. -/
def ZCString.detach (z : ZCString) (σ : Alloc) : ZCString × Alloc :=
  from_str_without_source z.as_str σ

/-! ## Source context and guards (`thread_local! SOURCE`, `SourceGuard`) -/

/-- The RAII guard: holds the previous value of the thread-local `SOURCE`. -/
structure SourceGuard where
  old_source : Option ZCString
  deriving Repr, DecidableEq

/-- `ZCString::get_source_guard`: swap `some self` into the thread-local
slot, remembering the previous value in the guard. Takes and returns the
explicit `SOURCE` state. -/
def ZCString.get_source_guard (z : ZCString) (ctx : Option ZCString) :
    SourceGuard × Option ZCString :=
  ({ old_source := ctx }, some z)

/-- `impl Drop for SourceGuard`: swap the remembered previous value back
into the thread-local slot. Returns the new `SOURCE` state. -/
def SourceGuard.dropGuard (g : SourceGuard) (_ctx : Option ZCString) :
    Option ZCString :=
  g.old_source

/-- `ZCString::with_source`: install the guard, run the closure, drop the
guard, return the closure's outcome. The closure receives the source and the
current `SOURCE` state and returns its outcome together with the `SOURCE`
state it left behind; in Rust `drop` runs on every exit path (including
unwinding), which the caller models by instantiating `ρ` with an
`Except`-shaped outcome — the guard drop below is unconditional either way. -/
def with_source {ρ : Type} (source : ZCString)
    (f : ZCString → Option ZCString → ρ × Option ZCString)
    (ctx : Option ZCString) : ρ × Option ZCString :=
  let (guard, ctx1) := source.get_source_guard ctx
  let (result, ctx2) := f source ctx1
  let ctx3 := guard.dropGuard ctx2
  (result, ctx3)

/-! ## Deserialization bridge (`impl Deserialize for ZCString`,
`serde_json_from_zcstring`) -/

/-- A string token handed to the visitor by the external decoder, tagged the
way `serde` dispatches it: borrowed verbatim from the input
(`visit_borrowed_str`), freshly constructed as `&str` (`visit_str`), or
freshly constructed as owned `String` (`visit_string`). -/
inductive StrToken where
  | borrowed (s : Slice)
  | ownedStr (s : Slice)
  | ownedString (s : Slice)
  deriving Repr, DecidableEq

/-- `ZCStringVisitor::visit_borrowed_str`: resolve through the provenance
path against the thread-local source. -/
def visit_borrowed_str (ctx : Option ZCString) (s : Slice) (σ : Alloc) :
    Option (ZCString × Alloc) :=
  from_str_with_source ctx s σ

/-- `ZCStringVisitor::visit_str`: always allocate a fresh buffer. -/
def visit_str (s : Slice) (σ : Alloc) : ZCString × Alloc :=
  from_str_without_source s σ

/-- `ZCStringVisitor::visit_string`: delegates to `visit_str`. -/
def visit_string (s : Slice) (σ : Alloc) : ZCString × Alloc :=
  visit_str s σ

/-- Visitor dispatch on one decoded string token, as `serde` performs it. -/
def deserializeToken (t : StrToken) (ctx : Option ZCString) (σ : Alloc) :
    Option (ZCString × Alloc) :=
  match t with
  | .borrowed s => visit_borrowed_str ctx s σ
  | .ownedStr s => some (visit_str s σ)
  | .ownedString s => some (visit_string s σ)

/-- One decode run of the external decoder: each string token of the
document is resolved by the visitor against the current thread-local
context, threading the allocator. The decoder itself never touches the
`SOURCE` slot. -/
def decodeStrings (toks : List StrToken) (ctx : Option ZCString) (σ : Alloc) :
    Option (List ZCString × Alloc) :=
  match toks with
  | [] => some ([], σ)
  | t :: rest => do
      let (z, σ1) ← deserializeToken t ctx σ
      let (zs, σ2) ← decodeStrings rest ctx σ1
      pure (z :: zs, σ2)

/-- `serde_json_from_zcstring`: `ZCString::with_source(json, |j| serde_json::from_str(&j))` —
the whole input document is installed as the source context for the entire
decode; the decoder's string tokens are the abstract `toks`. -/
def serde_json_from_zcstring (json : ZCString) (toks : List StrToken)
    (ctx : Option ZCString) (σ : Alloc) :
    Option (List ZCString × Alloc) × Option ZCString :=
  with_source json (fun _j c => (decodeStrings toks c σ, c)) ctx

/-! ## Iterator adapter (`wrap_iter`, `ZCStringIterWrapper`) -/

/-- `ZCStringIterWrapper` driven to completion: the wrapper's `next()` maps
each fragment the inner iterator yields through `from_substr` against the
stored source. The inner iterator is modelled by the finite list of `&str`
fragments it yields. -/
def wrapIterAll (source : ZCString) (items : List Slice) (σ : Alloc) :
    Option (List ZCString × Alloc) :=
  match items with
  | [] => some ([], σ)
  | s :: rest => do
      let (z, σ1) ← source.from_substr s σ
      let (zs, σ2) ← wrapIterAll source rest σ1
      pure (z :: zs, σ2)

/-! ## Content-based equality, ordering, hashing, display -/

/-- Lexicographic byte comparison, as `str`/`Substr` ordering performs it. -/
def lexCmp : List Nat → List Nat → Ordering
  | [], [] => .eq
  | [], _ :: _ => .lt
  | _ :: _, [] => .gt
  | a :: as', b :: bs' =>
      if a < b then .lt
      else if b < a then .gt
      else lexCmp as' bs'

/-- A content hash of a byte sequence (64-bit polynomial hash), standing in
for the `Hash` impl that `Substr` derives over its `str` content. -/
def hashBytes (l : List Nat) : Nat :=
  l.foldl (fun h b => (h * 31 + b) % (2 ^ 64)) 5381

/-- Derived `PartialEq`/`Eq` on `ZCString`: delegates to `Substr`, which
compares the addressed text content. -/
def ZCString.beq (a b : ZCString) : Bool :=
  a.content == b.content

/-- Derived `Ord` on `ZCString`: delegates to `Substr`'s content ordering. -/
def ZCString.cmp (a b : ZCString) : Ordering :=
  lexCmp a.content b.content

/-- Derived `Hash` on `ZCString`: hashes the addressed text content. -/
def ZCString.hash (a : ZCString) : Nat :=
  hashBytes a.content

/-- `impl Display for ZCString`: renders the addressed text content. -/
def ZCString.display (a : ZCString) : List Nat :=
  a.content

/-! ## Stream reading (`ZCString::read_range`, `ReaderError`) -/

/-- A seekable in-memory byte stream (a `Cursor`): contents and position. -/
structure Stream where
  bytes : List Nat
  pos : Nat
  deriving Repr, DecidableEq

/-- One `Bound<u64>` of a `RangeBounds<u64>` argument. -/
inductive RBound where
  | included (n : Nat)
  | excluded (n : Nat)
  | unbounded
  deriving Repr, DecidableEq

/-- The `ReaderError` enum of the crate. -/
inductive ReaderError where
  | invalidRange (start stop : Nat)
  | io
  | utf8
  deriving Repr, DecidableEq

/-- Is `b` a UTF-8 continuation byte (`0x80..=0xBF`)? -/
def isCont (b : Nat) : Bool :=
  128 ≤ b && b ≤ 191

/-- UTF-8 validity of a byte sequence, as `core::str::from_utf8` checks it
(RFC 3629: no overlong forms, no surrogates, scalar values ≤ U+10FFFF).
The `fuel` argument only drives structural recursion; it is instantiated
with the list length in `utf8Valid`, which always suffices because each
step consumes at least one byte. -/
def utf8ValidAux : Nat → List Nat → Bool
  | _, [] => true
  | 0, _ :: _ => false
  | fuel + 1, b :: rest =>
      if b ≤ 0x7F then utf8ValidAux fuel rest
      else if 0xC2 ≤ b && b ≤ 0xDF then
        match rest with
        | c1 :: r => isCont c1 && utf8ValidAux fuel r
        | [] => false
      else if b = 0xE0 then
        match rest with
        | c1 :: c2 :: r =>
            (0xA0 ≤ c1 && c1 ≤ 0xBF) && isCont c2 && utf8ValidAux fuel r
        | _ => false
      else if (0xE1 ≤ b && b ≤ 0xEC) || b = 0xEE || b = 0xEF then
        match rest with
        | c1 :: c2 :: r => isCont c1 && isCont c2 && utf8ValidAux fuel r
        | _ => false
      else if b = 0xED then
        match rest with
        | c1 :: c2 :: r =>
            (0x80 ≤ c1 && c1 ≤ 0x9F) && isCont c2 && utf8ValidAux fuel r
        | _ => false
      else if b = 0xF0 then
        match rest with
        | c1 :: c2 :: c3 :: r =>
            (0x90 ≤ c1 && c1 ≤ 0xBF) && isCont c2 && isCont c3 && utf8ValidAux fuel r
        | _ => false
      else if 0xF1 ≤ b && b ≤ 0xF3 then
        match rest with
        | c1 :: c2 :: c3 :: r =>
            isCont c1 && isCont c2 && isCont c3 && utf8ValidAux fuel r
        | _ => false
      else if b = 0xF4 then
        match rest with
        | c1 :: c2 :: c3 :: r =>
            (0x80 ≤ c1 && c1 ≤ 0x8F) && isCont c2 && isCont c3 && utf8ValidAux fuel r
        | _ => false
      else
        false

/-- UTF-8 validity: run the validator with fuel equal to the list length. -/
def utf8Valid (l : List Nat) : Bool :=
  utf8ValidAux l.length l

/-- Resolution of the start bound in `read_range`: `Included s ↦ s`,
`Excluded s ↦ s + 1`, `Unbounded ↦ input.stream_position()` (current pos). -/
def resolveStart (input : Stream) (b : RBound) : Nat :=
  match b with
  | .included s => s
  | .excluded s => s + 1
  | .unbounded => input.pos

/-- Resolution of the end bound in `read_range`: `Included e ↦ e + 1`,
`Excluded e ↦ e`, `Unbounded ↦ input.seek(SeekFrom::End(0))` (stream length). -/
def resolveEnd (input : Stream) (b : RBound) : Nat :=
  match b with
  | .included e => e + 1
  | .excluded e => e
  | .unbounded => input.bytes.length

/-- The empty `ZCString` (`ZCString::new()`, built from `literal!("")`:
a static buffer, not an allocation). -/
def emptyZC : ZCString :=
  { buf := { id := 0, addr := 0, data := [] }, off := 0, len := 0 }

/-- `ZCString::read_range`: resolve the bounds, fail with `InvalidRange`
when `start_pos > end_pos`, return the empty string when they coincide,
otherwise seek to `start_pos` and `read_exact` `end_pos - start_pos` bytes
into a zero-initialised `ArcStr::init_with` buffer. `init_with` validates
UTF-8 and its error propagates first (`?`); a `read_exact` failure
(`UnexpectedEof` when the stream is too short) leaves the zero-initialised
buffer, which is valid UTF-8, so the I/O error is then surfaced. -/
def read_range (input : Stream) (startB endB : RBound) (σ : Alloc) :
    Except ReaderError (ZCString × Alloc) :=
  let start_pos := resolveStart input startB
  let end_pos := resolveEnd input endB
  if end_pos < start_pos then
    .error (.invalidRange start_pos end_pos)
  else if start_pos = end_pos then
    .ok (emptyZC, σ)
  else
    let n := end_pos - start_pos
    if start_pos + n ≤ input.bytes.length then
      let chunk := (input.bytes.drop start_pos).take n
      if utf8Valid chunk then
        let (b, σ') := σ.alloc chunk
        .ok ({ buf := b, off := 0, len := chunk.length }, σ')
      else
        .error .utf8
    else
      if utf8Valid (List.replicate n 0) then .error .io else .error .utf8

end Zcstring

namespace Zcstring

/-! ## Sanity examples (concrete evaluation of the embedding) -/

/-- An 11-byte buffer holding `"hello world"`. -/
def helloWorldBuf : Buffer :=
  { id := 0, addr := 1000,
    data := [104, 101, 108, 108, 111, 32, 119, 111, 114, 108, 100] }

/-- `root = ZCString::from_str_without_source("hello world")` as a view. -/
def helloWorldRoot : ZCString :=
  { buf := helloWorldBuf, off := 0, len := 11 }

example : helloWorldRoot.source_of (helloWorldRoot.sliceAt 0 5) = true := by decide

example : helloWorldRoot.source_of { addr := 20, data := [104] } = false := by decide

/-- `root.substr(0..5)`: the first five bytes (`"hello"`) of the buffer. -/
def helloWorldV5 : ZCString :=
  { buf := helloWorldBuf, off := 0, len := 5 }

example : helloWorldRoot.substr 0 5 = some helloWorldV5 := by decide

/-- A 5-byte buffer holding exactly `"hello"`, with a full view over it. -/
def helloBuf5Root : ZCString :=
  { buf := { id := 0, addr := 2000, data := [104, 101, 108, 108, 111] },
    off := 0, len := 5 }

/-- Byte content of an ASCII string literal (for ASCII text the UTF-8
bytes are the code points). -/
def strBytes (s : String) : List Nat :=
  s.toList.map Char.toNat

/-! ## Helper lemmas -/

theorem ZCString.content_length (z : ZCString) (h : z.WF) :
    z.content.length = z.len := by
  simp only [ZCString.content, List.length_take, List.length_drop]
  unfold ZCString.WF at h
  omega

theorem from_str_without_source_fst (s : Slice) (σ : Alloc) :
    (from_str_without_source s σ).1 =
      { buf := { id := σ.nextId, addr := σ.nextAddr, data := s.data },
        off := 0, len := s.data.length } := by
  simp [from_str_without_source, Alloc.alloc]

theorem from_str_without_source_content (s : Slice) (σ : Alloc) :
    (from_str_without_source s σ).1.content = s.data := by
  simp [from_str_without_source, Alloc.alloc, ZCString.content]

/-- On a genuine sub-slice whose start is strictly inside the view, the
provenance check accepts. -/
theorem source_of_sliceAt (z : ZCString) (a b : Nat) (ha : a < z.len) :
    z.source_of (z.sliceAt a b) = true := by
  simp [ZCString.source_of, ZCString.sliceAt, ha]

/-- On a genuine sub-slice (start strictly inside the view, in-bounds end,
character boundaries), `from_substr` re-slices zero-copy: same buffer,
matching offset, no allocation. -/
theorem from_substr_sliceAt (z : ZCString) (a b : Nat) (σ : Alloc)
    (hwf : z.WF) (hab : a ≤ b) (hb : b ≤ z.len) (ha : a < z.len)
    (hba : isCharBoundary z.content a = true)
    (hbb : isCharBoundary z.content b = true) :
    z.from_substr (z.sliceAt a b) σ =
      some ({ buf := z.buf, off := z.off + a, len := b - a }, σ) := by
  have hlen : z.content.length = z.len := z.content_length hwf
  have hslen : ((z.content.drop a).take (b - a)).length = b - a := by
    simp only [List.length_take, List.length_drop, hlen]
    omega
  have hsum : a + (b - a) = b := by omega
  simp only [ZCString.from_substr, ZCString.sliceAt, Nat.add_sub_cancel_left,
    hslen, hsum]
  rw [if_pos ⟨Nat.le_add_right _ _, by omega⟩]
  simp [ZCString.substr, hab, hb, hba, hbb]

/-- Driving the iterator wrapper over any list of genuine sub-slices of
the source yields the corresponding zero-copy sub-views, with the allocator
untouched. -/
theorem wrapIterAll_slices (z : ZCString) (σ : Alloc) (hwf : z.WF) :
    ∀ ps : List (Nat × Nat),
      (∀ p ∈ ps, p.1 ≤ p.2 ∧ p.2 ≤ z.len ∧ p.1 < z.len ∧
        isCharBoundary z.content p.1 = true ∧
        isCharBoundary z.content p.2 = true) →
      wrapIterAll z (ps.map (fun p => z.sliceAt p.1 p.2)) σ =
        some (ps.map
          (fun p => { buf := z.buf, off := z.off + p.1, len := p.2 - p.1 }), σ)
  | [], _ => rfl
  | p :: rest, hall => by
      obtain ⟨h1, h2, h3, h4, h5⟩ := hall p (by simp)
      have hrest := wrapIterAll_slices z σ hwf rest
        (fun q hq => hall q (List.mem_cons_of_mem _ hq))
      simp [List.map_cons, wrapIterAll,
        from_substr_sliceAt z p.1 p.2 σ hwf h1 h2 h3 h4 h5, hrest]

/-! ## Claim theorems -/

/-- C1: the claim says that for a candidate `s` starting inside `V` but
extending past `V`'s end, `source_of` returns false and `from_substr` falls
back to allocating. The code checks only `offset < self.0.len()` and never
bounds the end of the candidate range, so at the failing input
(`V = root.substr(0..5)` over `"hello world"`, `s = &root[3..8]`)
`source_of` returns `true`, and `from_substr` calls
`self.substr(3..3+5)` on a 5-byte `Substr`, which panics (modelled `none`)
instead of allocating. -/
theorem c1_end_bound_check_missing :
    helloWorldV5.source_of (helloWorldRoot.sliceAt 3 8) = true ∧
    helloWorldV5.from_substr (helloWorldRoot.sliceAt 3 8)
      { nextId := 1, nextAddr := 5000 } = none := by
  decide

/-- C2: installing a source through a guard and dropping the guard restores
the thread-local source slot to exactly its prior value, for every closure
outcome (a panicking/failing closure is the `Except.error` instantiation);
nested guards restore their remembered values in LIFO order. -/
theorem c2_guard_restoration_lifo {ρ ε : Type} (source v1 v2 : ZCString)
    (f : ZCString → Option ZCString → ρ × Option ZCString)
    (e : ε) (mangle : Option ZCString → Option ZCString)
    (ctx : Option ZCString) :
    (with_source source f ctx).2 = ctx ∧
    (with_source source
      (fun _ c => ((Except.error e : Except ε ρ), mangle c)) ctx).2 = ctx ∧
    (v1.get_source_guard ctx).2 = some v1 ∧
    (v2.get_source_guard (v1.get_source_guard ctx).2).2 = some v2 ∧
    (v2.get_source_guard (v1.get_source_guard ctx).2).1.dropGuard
      (v2.get_source_guard (v1.get_source_guard ctx).2).2 = some v1 ∧
    (v1.get_source_guard ctx).1.dropGuard
      ((v2.get_source_guard (v1.get_source_guard ctx).2).1.dropGuard
        (v2.get_source_guard (v1.get_source_guard ctx).2).2) = ctx := by
  refine ⟨rfl, rfl, rfl, rfl, rfl, rfl⟩

/-- C4: the bridge decodes with the whole input document installed as the
source context for the entire decode and restores the prior context after;
a token the decoder reports as borrowed (`visit_borrowed_str`) goes through
the provenance path (`from_str_with_source`), while `visit_str` and
`visit_string` tokens are always freshly allocated
(`from_str_without_source`, buffer id `σ.nextId`) with no provenance check
(the context does not occur in their result). -/
theorem c4_bridge_dispatch (json : ZCString) (toks : List StrToken)
    (ctx c : Option ZCString) (σ : Alloc) (s : Slice) :
    serde_json_from_zcstring json toks ctx σ =
      (decodeStrings toks (some json) σ, ctx) ∧
    deserializeToken (.borrowed s) c σ = from_str_with_source c s σ ∧
    deserializeToken (.ownedStr s) c σ = some (from_str_without_source s σ) ∧
    deserializeToken (.ownedString s) c σ = some (from_str_without_source s σ) ∧
    (deserializeToken (.ownedStr s) c σ).map (fun p => p.1.buf.id) =
      some σ.nextId := by
  refine ⟨rfl, rfl, rfl, rfl, ?_⟩
  simp [deserializeToken, visit_str, from_str_without_source, Alloc.alloc]

/-- C3 counterexample: the claim quantifies over all slices `V[a..b]` with
`a ≤ b ≤ length(V)`, but for the empty slice at exactly `V`'s end
(`a = b = length(V) = 5` on `"hello"`) the computed offset equals `V`'s
length, `offset < len` fails, `source_of` returns `false`, and
`from_substr` allocates a fresh buffer (id `7 ≠ 0`) instead of re-slicing. -/
theorem c3_counterexample_end_slice :
    helloBuf5Root.source_of (helloBuf5Root.sliceAt 5 5) = false ∧
    (helloBuf5Root.from_substr (helloBuf5Root.sliceAt 5 5)
        { nextId := 7, nextAddr := 5000 }).map
      (fun p => (p.1.buf.id, p.1.content)) = some (7, []) ∧
    helloBuf5Root.buf.id = 0 := by
  decide

/-- C3 (amended): for every well-formed view `V` and every slice
`s = V[a..b]` with `a ≤ b ≤ length(V)` on character boundaries and the
start strictly inside `V` (`a < length(V)`), `source_of` returns true and
`from_substr` returns the zero-copy sub-view of `V`'s own buffer at the
matching offset, with no allocation. -/
theorem c3_containment_soundness (z : ZCString) (a b : Nat) (σ : Alloc)
    (hwf : z.WF) (hab : a ≤ b) (hb : b ≤ z.len) (ha : a < z.len)
    (hba : isCharBoundary z.content a = true)
    (hbb : isCharBoundary z.content b = true) :
    z.source_of (z.sliceAt a b) = true ∧
    z.from_substr (z.sliceAt a b) σ =
      some ({ buf := z.buf, off := z.off + a, len := b - a }, σ) :=
  ⟨source_of_sliceAt z a b ha,
   from_substr_sliceAt z a b σ hwf hab hb ha hba hbb⟩

/-- C3 witness: the amended theorem at `V = ` full view of `"hello"`,
`a = 0`, `b = 5`. -/
theorem c3_containment_soundness_witness :
    helloBuf5Root.source_of (helloBuf5Root.sliceAt 0 5) = true ∧
    helloBuf5Root.from_substr (helloBuf5Root.sliceAt 0 5)
        { nextId := 3, nextAddr := 7000 } =
      some ({ buf := helloBuf5Root.buf, off := helloBuf5Root.off + 0,
              len := 5 - 0 }, { nextId := 3, nextAddr := 7000 }) :=
  c3_containment_soundness helloBuf5Root 0 5 { nextId := 3, nextAddr := 7000 }
    (by decide) (by decide) (by decide) (by decide) (by decide) (by decide)

/-- C5: for a candidate `s` whose start address lies outside `V`'s
address range (either before `V`'s start or at/after `V`'s end — in
particular any `s` from a disjoint allocation), `from_substr` allocates a
brand-new backing buffer; the result is content-equal to `s` but its buffer
is distinct from `V`'s (given the allocator id is fresh for `V`). -/
theorem c5_non_containment_allocates (z : ZCString) (s : Slice) (σ : Alloc)
    (hout : s.addr < z.addrStart ∨ z.addrStart + z.len ≤ s.addr)
    (hfresh : z.buf.id ≠ σ.nextId) :
    z.from_substr s σ = some (from_str_without_source s σ) ∧
    (from_str_without_source s σ).1.content = s.data ∧
    (from_str_without_source s σ).1.buf ≠ z.buf := by
  refine ⟨?_, from_str_without_source_content s σ, ?_⟩
  · have hcond : ¬ (z.addrStart ≤ s.addr ∧ s.addr - z.addrStart < z.len) := by
      rcases hout with h | h
      · omega
      · omega
    simp [ZCString.from_substr, hcond]
  · intro hbuf
    apply hfresh
    rw [from_str_without_source_fst] at hbuf
    rw [← hbuf]

/-- C5 witness: a slice from a disjoint allocation (address 50, below the
view's storage at 2000) is copied into buffer id 9 ≠ 0. -/
theorem c5_non_containment_allocates_witness :
    helloBuf5Root.from_substr { addr := 50, data := [104, 105] }
        { nextId := 9, nextAddr := 8000 } =
      some (from_str_without_source { addr := 50, data := [104, 105] }
        { nextId := 9, nextAddr := 8000 }) ∧
    (from_str_without_source { addr := 50, data := [104, 105] }
        { nextId := 9, nextAddr := 8000 }).1.content = [104, 105] ∧
    (from_str_without_source { addr := 50, data := [104, 105] }
        { nextId := 9, nextAddr := 8000 }).1.buf ≠ helloBuf5Root.buf :=
  c5_non_containment_allocates helloBuf5Root { addr := 50, data := [104, 105] }
    { nextId := 9, nextAddr := 8000 } (Or.inl (by decide)) (by decide)

/-- The text `"line1\nline2\nline3"` in a buffer, with a full view over it. -/
def linesBuf : Buffer :=
  { id := 2, addr := 4000, data := strBytes "line1\nline2\nline3" }

/-- Full view over `linesBuf`. -/
def linesRoot : ZCString :=
  { buf := linesBuf, off := 0, len := 17 }

/-- C7: the iterator wrapper passes every fragment through `from_substr`
against the source view: over any list of genuine sub-slices it yields the
corresponding zero-copy sub-views with the allocator untouched; in
particular, splitting `"line1\nline2\nline3"` by lines (fragments at byte
ranges `[0,5)`, `[6,11)`, `[12,17)`) yields exactly three views over the
original buffer, content-equal to `"line1"`, `"line2"`, `"line3"`. -/
theorem c7_wrap_iter_zero_copy (z : ZCString) (ps : List (Nat × Nat))
    (σ : Alloc) (hwf : z.WF)
    (hall : ∀ p ∈ ps, p.1 ≤ p.2 ∧ p.2 ≤ z.len ∧ p.1 < z.len ∧
      isCharBoundary z.content p.1 = true ∧
      isCharBoundary z.content p.2 = true) :
    wrapIterAll z (ps.map (fun p => z.sliceAt p.1 p.2)) σ =
      some (ps.map
        (fun p => { buf := z.buf, off := z.off + p.1, len := p.2 - p.1 }), σ) ∧
    wrapIterAll linesRoot
        [linesRoot.sliceAt 0 5, linesRoot.sliceAt 6 11, linesRoot.sliceAt 12 17]
        { nextId := 3, nextAddr := 9000 } =
      some ([{ buf := linesBuf, off := 0, len := 5 },
             { buf := linesBuf, off := 6, len := 5 },
             { buf := linesBuf, off := 12, len := 5 }],
            { nextId := 3, nextAddr := 9000 }) ∧
    ({ buf := linesBuf, off := 0, len := 5 } : ZCString).content =
      strBytes "line1" ∧
    ({ buf := linesBuf, off := 6, len := 5 } : ZCString).content =
      strBytes "line2" ∧
    ({ buf := linesBuf, off := 12, len := 5 } : ZCString).content =
      strBytes "line3" :=
  ⟨wrapIterAll_slices z σ hwf ps hall, by decide, by decide, by decide, by decide⟩

/-- C7 witness: the theorem applied to the line-splitting scenario itself
(`ps = [(0,5), (6,11), (12,17)]` over the `"line1\nline2\nline3"` view). -/
theorem c7_wrap_iter_zero_copy_witness :
    wrapIterAll linesRoot
        ([(0, 5), (6, 11), (12, 17)].map (fun p => linesRoot.sliceAt p.1 p.2))
        { nextId := 3, nextAddr := 9000 } =
      some ([(0, 5), (6, 11), (12, 17)].map
        (fun p => { buf := linesRoot.buf, off := linesRoot.off + p.1,
                    len := p.2 - p.1 }),
        { nextId := 3, nextAddr := 9000 }) :=
  (c7_wrap_iter_zero_copy linesRoot [(0, 5), (6, 11), (12, 17)]
    { nextId := 3, nextAddr := 9000 } (by decide) (by decide)).1

/-- C8: `detach()` copies the view's text into a brand-new buffer: the
result is content-equal to the original, is a full view (offset 0) over its
own fresh buffer whose data is exactly the copied text — so it shares no
storage with the original buffer, and dropping the original buffer cannot
affect the detached view's content. -/
theorem c8_detach_isolation (z : ZCString) (σ : Alloc)
    (hfresh : z.buf.id ≠ σ.nextId) :
    (z.detach σ).1.content = z.content ∧
    (z.detach σ).1.buf.id = σ.nextId ∧
    (z.detach σ).1.buf ≠ z.buf ∧
    (z.detach σ).1.off = 0 ∧
    (z.detach σ).1.buf.data = z.content ∧
    (z.detach σ).1.len = z.content.length := by
  refine ⟨from_str_without_source_content _ _, ?_, ?_, ?_, ?_, ?_⟩ <;>
    simp only [ZCString.detach, from_str_without_source_fst, ZCString.as_str]
  · intro hbuf
    exact hfresh (by rw [← hbuf])

/-- C8 witness: detaching the `"hello"` view under allocator id 4. -/
theorem c8_detach_isolation_witness :
    (helloBuf5Root.detach { nextId := 4, nextAddr := 6000 }).1.content =
      helloBuf5Root.content ∧
    (helloBuf5Root.detach { nextId := 4, nextAddr := 6000 }).1.buf.id = 4 ∧
    (helloBuf5Root.detach { nextId := 4, nextAddr := 6000 }).1.buf ≠
      helloBuf5Root.buf ∧
    (helloBuf5Root.detach { nextId := 4, nextAddr := 6000 }).1.off = 0 ∧
    (helloBuf5Root.detach { nextId := 4, nextAddr := 6000 }).1.buf.data =
      helloBuf5Root.content ∧
    (helloBuf5Root.detach { nextId := 4, nextAddr := 6000 }).1.len =
      helloBuf5Root.content.length :=
  c8_detach_isolation helloBuf5Root { nextId := 4, nextAddr := 6000 } (by decide)

theorem lexCmp_self (l : List Nat) : lexCmp l l = .eq := by
  induction l with
  | nil => rfl
  | cons a t ih => simp [lexCmp, ih]

/-- C9: equality, ordering and hashing of views are functions of the
addressed text content only: `beq` holds iff contents are equal (so views
over different buffers with equal text compare equal — the last two
conjuncts exhibit two such views, with distinct buffer ids, addresses and
offsets), equal content gives equal hash and `Ordering.eq`, comparison is
lexicographic on content, and `Display` renders the content. -/
theorem c9_content_based_equality (a b : ZCString) :
    (a.beq b = true ↔ a.content = b.content) ∧
    (a.content = b.content → a.hash = b.hash) ∧
    (a.content = b.content → a.cmp b = .eq) ∧
    a.cmp b = lexCmp a.content b.content ∧
    a.display = a.content ∧
    (ZCString.beq { buf := { id := 20, addr := 300, data := strBytes "cat" },
                    off := 0, len := 3 }
                  { buf := { id := 21, addr := 900, data := strBytes "xcaty" },
                    off := 1, len := 3 } = true) ∧
    ({ id := 20, addr := 300, data := strBytes "cat" } : Buffer) ≠
      { id := 21, addr := 900, data := strBytes "xcaty" } := by
  refine ⟨?_, ?_, ?_, rfl, rfl, by decide, by decide⟩
  · simp [ZCString.beq]
  · intro h
    simp [ZCString.hash, h]
  · intro h
    simp [ZCString.cmp, h, lexCmp_self]

/-- C9 witness: the theorem applied to the two `"cat"` views, discharging
the content-equality hypotheses by evaluation. -/
theorem c9_content_based_equality_witness :
    ZCString.beq { buf := { id := 20, addr := 300, data := strBytes "cat" },
                   off := 0, len := 3 }
                 { buf := { id := 21, addr := 900, data := strBytes "xcaty" },
                   off := 1, len := 3 } = true ∧
    ZCString.hash { buf := { id := 20, addr := 300, data := strBytes "cat" },
                    off := 0, len := 3 } =
      ZCString.hash { buf := { id := 21, addr := 900, data := strBytes "xcaty" },
                      off := 1, len := 3 } ∧
    ZCString.cmp { buf := { id := 20, addr := 300, data := strBytes "cat" },
                   off := 0, len := 3 }
                 { buf := { id := 21, addr := 900, data := strBytes "xcaty" },
                   off := 1, len := 3 } = .eq :=
  ⟨((c9_content_based_equality
      { buf := { id := 20, addr := 300, data := strBytes "cat" }, off := 0, len := 3 }
      { buf := { id := 21, addr := 900, data := strBytes "xcaty" }, off := 1, len := 3 }).1).mpr
      (by decide),
   (c9_content_based_equality
      { buf := { id := 20, addr := 300, data := strBytes "cat" }, off := 0, len := 3 }
      { buf := { id := 21, addr := 900, data := strBytes "xcaty" }, off := 1, len := 3 }).2.1
      (by decide),
   (c9_content_based_equality
      { buf := { id := 20, addr := 300, data := strBytes "cat" }, off := 0, len := 3 }
      { buf := { id := 21, addr := 900, data := strBytes "xcaty" }, off := 1, len := 3 }).2.2.1
      (by decide)⟩

theorem utf8ValidAux_cons_zero (fuel : Nat) (l : List Nat) :
    utf8ValidAux (fuel + 1) (0 :: l) = utf8ValidAux fuel l := by
  simp [utf8ValidAux]

theorem utf8Valid_replicate_zero (n : Nat) :
    utf8Valid (List.replicate n 0) = true := by
  unfold utf8Valid
  induction n with
  | zero => rfl
  | succ k ih =>
      rw [List.replicate_succ]
      simp only [List.length_cons, List.length_replicate]
      rw [utf8ValidAux_cons_zero]
      simpa [List.length_replicate] using ih

/-- C6: `read_range` fails with `InvalidRange` exactly when the resolved
start of the byte range exceeds the resolved end; an unbounded end resolves
to end-of-stream; a short read (`read_exact` hitting end of data) is
surfaced as an I/O error; invalid UTF-8 in the bytes read is surfaced as an
encoding error; and with an unbounded end the successful result holds
exactly the bytes from the start position to end-of-stream. -/
theorem c6_read_range_error_cases (input : Stream) (startB endB : RBound)
    (σ : Alloc) :
    ((∃ a b, read_range input startB endB σ =
        .error (.invalidRange a b)) ↔
      resolveEnd input endB < resolveStart input startB) ∧
    (endB = .unbounded → resolveEnd input endB = input.bytes.length) ∧
    (resolveStart input startB < resolveEnd input endB →
      input.bytes.length < resolveEnd input endB →
      read_range input startB endB σ = .error .io) ∧
    (resolveStart input startB < resolveEnd input endB →
      resolveEnd input endB ≤ input.bytes.length →
      utf8Valid ((input.bytes.drop (resolveStart input startB)).take
        (resolveEnd input endB - resolveStart input startB)) = false →
      read_range input startB endB σ = .error .utf8) ∧
    (endB = .unbounded →
      resolveStart input startB ≤ input.bytes.length →
      utf8Valid (input.bytes.drop (resolveStart input startB)) = true →
      ∃ p, read_range input startB endB σ = .ok p ∧
        p.1.content = input.bytes.drop (resolveStart input startB)) := by
  set sp := resolveStart input startB with hsp
  set ep := resolveEnd input endB with hep
  refine ⟨⟨?_, ?_⟩, ?_, ?_, ?_, ?_⟩
  · rintro ⟨a, b, h⟩
    by_contra hlt
    simp only [read_range, ← hsp, ← hep] at h
    rw [if_neg hlt] at h
    by_cases hse : sp = ep
    · rw [if_pos hse] at h
      exact Except.noConfusion h
    · rw [if_neg hse] at h
      by_cases hfit : sp + (ep - sp) ≤ input.bytes.length
      · rw [if_pos hfit] at h
        by_cases hv : utf8Valid ((input.bytes.drop sp).take (ep - sp)) = true
        · rw [if_pos hv] at h
          exact Except.noConfusion h
        · rw [if_neg hv] at h
          simp at h
      · rw [if_neg hfit] at h
        rw [if_pos (utf8Valid_replicate_zero (ep - sp))] at h
        simp at h
  · intro hlt
    refine ⟨sp, ep, ?_⟩
    simp only [read_range, ← hsp, ← hep]
    rw [if_pos hlt]
  · intro hub
    rw [hep, hub]
    rfl
  · intro hlt hlen
    simp only [read_range, ← hsp, ← hep]
    rw [if_neg (by omega), if_neg (by omega), if_neg (by omega),
      if_pos (utf8Valid_replicate_zero (ep - sp))]
  · intro hlt hlen hv
    simp only [read_range, ← hsp, ← hep]
    rw [if_neg (by omega), if_neg (by omega), if_pos (by omega), if_neg (by simp [hv])]
  · intro hub hle hv
    have heq : ep = input.bytes.length := by rw [hep, hub]; rfl
    by_cases hse : sp = ep
    · refine ⟨(emptyZC, σ), ?_, ?_⟩
      · simp only [read_range, ← hsp, ← hep]
        rw [if_neg (by omega), if_pos hse]
      · have : sp = input.bytes.length := by omega
        simp [emptyZC, ZCString.content, this, List.drop_length]
    · have hsplt : sp < ep := by omega
      have hdlen : (input.bytes.drop sp).length = ep - sp := by
        simp [List.length_drop, heq]
      have hchunk : (input.bytes.drop sp).take (ep - sp) = input.bytes.drop sp := by
        rw [← hdlen]
        exact List.take_length _
      have hok : read_range input startB endB σ =
          .ok ({ buf := { id := σ.nextId, addr := σ.nextAddr,
                          data := input.bytes.drop sp },
                 off := 0, len := (input.bytes.drop sp).length },
               { nextId := σ.nextId + 1,
                 nextAddr := σ.nextAddr + (input.bytes.drop sp).length + 1 }) := by
        simp only [read_range, ← hsp, ← hep]
        rw [if_neg (by omega), if_neg hse, if_pos (by omega), hchunk,
          if_pos hv]
        simp [Alloc.alloc]
      refine ⟨_, hok, ?_⟩
      simp [ZCString.content, List.take_length]

/-- C6 witness: on the 4-byte stream `[104, 105, 0xC3, 0x28]` at position 0
the theorem's cases are exercised: range `3..1` is inverted; an unbounded
end resolves to 4; range `2..6` over-reads (I/O error); range `2..4` reads
the invalid UTF-8 pair `[0xC3, 0x28]` (encoding error); range `0..` with
the invalid tail replaced — here the valid prefix stream `[104, 105]` —
reads to end-of-stream. -/
theorem c6_read_range_error_cases_witness :
    (read_range { bytes := [104, 105, 195, 40], pos := 0 }
        (.included 3) (.excluded 1) { nextId := 1, nextAddr := 100 } =
      .error (.invalidRange 3 1)) ∧
    (read_range { bytes := [104, 105, 195, 40], pos := 0 }
        (.included 2) (.excluded 6) { nextId := 1, nextAddr := 100 } =
      .error .io) ∧
    (read_range { bytes := [104, 105, 195, 40], pos := 0 }
        (.included 2) (.excluded 4) { nextId := 1, nextAddr := 100 } =
      .error .utf8) ∧
    (∃ p, read_range { bytes := [104, 105], pos := 0 }
        (.included 0) .unbounded { nextId := 1, nextAddr := 100 } = .ok p ∧
      p.1.content = [104, 105]) := by
  refine ⟨?_, ?_, ?_, ?_⟩
  · rfl
  · exact (c6_read_range_error_cases { bytes := [104, 105, 195, 40], pos := 0 }
      (.included 2) (.excluded 6) { nextId := 1, nextAddr := 100 }).2.2.1
      (by decide) (by decide)
  · exact (c6_read_range_error_cases { bytes := [104, 105, 195, 40], pos := 0 }
      (.included 2) (.excluded 4) { nextId := 1, nextAddr := 100 }).2.2.2.1
      (by decide) (by decide) (by decide)
  · exact (c6_read_range_error_cases { bytes := [104, 105], pos := 0 }
      (.included 0) .unbounded { nextId := 1, nextAddr := 100 }).2.2.2.2
      rfl (by decide) (by decide)

/-- C10: with no source installed (`SOURCE = None`), `from_str_with_source`
(and the `From<&str>` impl) behaves exactly as `from_str_without_source`:
it allocates a fresh buffer (id `σ.nextId`), the result is content-equal to
`s`, and it aliases no pre-existing buffer (any buffer with an id already
handed out is distinct from the result's). -/
theorem c10_no_source_always_allocates (s : Slice) (σ : Alloc) (B : Buffer)
    (hB : B.id < σ.nextId) :
    from_str_with_source none s σ = some (from_str_without_source s σ) ∧
    from_str_impl none s σ = some (from_str_without_source s σ) ∧
    (from_str_without_source s σ).1.content = s.data ∧
    (from_str_without_source s σ).1.buf.id = σ.nextId ∧
    (from_str_without_source s σ).1.buf ≠ B := by
  refine ⟨rfl, rfl, from_str_without_source_content s σ, ?_, ?_⟩
  · rw [from_str_without_source_fst]
  · intro hbuf
    rw [from_str_without_source_fst] at hbuf
    have : σ.nextId = B.id := congrArg Buffer.id hbuf
    omega

/-- C10 witness: no installed source, a two-byte slice, allocator id 5,
pre-existing buffer id 0. -/
theorem c10_no_source_always_allocates_witness :
    from_str_with_source none { addr := 123, data := [97, 98] }
        { nextId := 5, nextAddr := 4000 } =
      some (from_str_without_source { addr := 123, data := [97, 98] }
        { nextId := 5, nextAddr := 4000 }) ∧
    from_str_impl none { addr := 123, data := [97, 98] }
        { nextId := 5, nextAddr := 4000 } =
      some (from_str_without_source { addr := 123, data := [97, 98] }
        { nextId := 5, nextAddr := 4000 }) ∧
    (from_str_without_source { addr := 123, data := [97, 98] }
        { nextId := 5, nextAddr := 4000 }).1.content = [97, 98] ∧
    (from_str_without_source { addr := 123, data := [97, 98] }
        { nextId := 5, nextAddr := 4000 }).1.buf.id = 5 ∧
    (from_str_without_source { addr := 123, data := [97, 98] }
        { nextId := 5, nextAddr := 4000 }).1.buf ≠ helloBuf5Root.buf :=
  c10_no_source_always_allocates { addr := 123, data := [97, 98] }
    { nextId := 5, nextAddr := 4000 } helloBuf5Root.buf (by decide)

end Zcstring
